import Mathlib

/-!
# Verification of the zplsc_c binary record parser (mi/dataset/parser/zplsc_c.py)

Shallow embedding of the binary record-framing and field-decoding engine of the
zplsc_c dataset parser.  The byte stream is a `List ℕ` of byte values (each
< 256 in well-formed inputs); machine integers of the source are modelled as ℕ
with explicit big-endian byte composition; floating point values are modelled
as ℚ; fallible decoding returns `Except`.

External collaborators (the `ZPLSCCEchogram` science helpers, which live in
`mi/dataset/driver/zplsc_c/zplsc_c_echogram.py` and are not part of the sources
under verification, and `np.log10`, a transcendental real function) are
parameters of the embedding, bundled in the `Collab` structure below.
-/

namespace ZplscC

/-- Error kinds raised inside `parse_record`, mirroring the exception classes of
the Python source:
* `structError`  — `struct.error` raised by `struct.Struct.unpack` when the
  bytes read from the stream are fewer than the structure size (`read` returns
  short only at end of stream);
* `valueError`   — `ValueError` raised by `datetime(...)` on out-of-range
  calendar components;
* `indexError`   — `IndexError` raised by indexing a 4-element ctypes array
  (or a shorter-than-4 channel-value list) out of bounds.  `IndexError` is NOT
  among the exception types caught by the `parse_file` loop. -/
inductive PErr where
  | structError
  | valueError
  | indexError
deriving DecidableEq, Repr

/-- The decoded `AzfpProfileHeader` (ctypes `BigEndianStructure`, `_pack_ = 1`,
122 bytes after the 2-byte delimiter).  Every `c_ushort`/`c_ubyte`/`c_uint`
field is a ℕ; the `×4` per-channel ctypes arrays are length-4 lists. -/
structure AzfpProfileHeader where
  burst_num : ℕ
  serial_num : ℕ
  ping_status : ℕ
  burst_interval : ℕ
  year : ℕ
  month : ℕ
  day : ℕ
  hour : ℕ
  minute : ℕ
  second : ℕ
  hundredths : ℕ
  digitization_rate : List ℕ
  lockout_index : List ℕ
  num_bins : List ℕ
  range_samples : List ℕ
  num_pings_profile : ℕ
  is_averaged_pings : ℕ
  num_pings_burst : ℕ
  ping_period : ℕ
  first_ping : ℕ
  second_ping : ℕ
  is_averaged_data : List ℕ
  error_num : ℕ
  phase : ℕ
  is_overrun : ℕ
  num_channels : ℕ
  gain : List ℕ
  spare : ℕ
  pulse_length : List ℕ
  board_num : List ℕ
  frequency : List ℕ
  is_sensor_available : ℕ
  tilt_x : ℕ
  tilt_y : ℕ
  battery_voltage : ℕ
  pressure : ℕ
  temperature : ℕ
  ad_channel_6 : ℕ
  ad_channel_7 : ℕ
deriving DecidableEq, Inhabited, Repr

/-- Big-endian 16-bit read at byte offset `i` of the header buffer.  Offsets
past the end read 0: `readinto` fills a freshly zero-initialised structure, so
bytes not supplied by the stream stay zero. -/
def u16 (l : List ℕ) (i : ℕ) : ℕ := 256 * l.getD i 0 + l.getD (i + 1) 0

/-- Big-endian 32-bit read at byte offset `i` (zero default past the end). -/
def u32 (l : List ℕ) (i : ℕ) : ℕ :=
  256 * (256 * (256 * l.getD i 0 + l.getD (i + 1) 0) + l.getD (i + 2) 0) + l.getD (i + 3) 0

/-- 8-bit read at byte offset `i` (zero default past the end). -/
def u8 (l : List ℕ) (i : ℕ) : ℕ := l.getD i 0

/-- Four consecutive big-endian 16-bit reads starting at offset `i`. -/
def u16x4 (l : List ℕ) (i : ℕ) : List ℕ := [u16 l i, u16 l (i + 2), u16 l (i + 4), u16 l (i + 6)]

/-- Four consecutive 8-bit reads starting at offset `i`. -/
def u8x4 (l : List ℕ) (i : ℕ) : List ℕ := [u8 l i, u8 l (i + 1), u8 l (i + 2), u8 l (i + 3)]

/-- Decode the 122 header bytes that follow the delimiter into an
`AzfpProfileHeader`, at the exact byte offsets of the ctypes layout (the
offsets in the source comments are from the delimiter, i.e. ours + 2). -/
def decodeHeader (l : List ℕ) : AzfpProfileHeader where
  burst_num := u16 l 0
  serial_num := u16 l 2
  ping_status := u16 l 4
  burst_interval := u32 l 6
  year := u16 l 10
  month := u16 l 12
  day := u16 l 14
  hour := u16 l 16
  minute := u16 l 18
  second := u16 l 20
  hundredths := u16 l 22
  digitization_rate := u16x4 l 24
  lockout_index := u16x4 l 32
  num_bins := u16x4 l 40
  range_samples := u16x4 l 48
  num_pings_profile := u16 l 56
  is_averaged_pings := u16 l 58
  num_pings_burst := u16 l 60
  ping_period := u16 l 62
  first_ping := u16 l 64
  second_ping := u16 l 66
  is_averaged_data := u8x4 l 68
  error_num := u16 l 72
  phase := u8 l 74
  is_overrun := u8 l 75
  num_channels := u8 l 76
  gain := u8x4 l 77
  spare := u8 l 81
  pulse_length := u16x4 l 82
  board_num := u16x4 l 90
  frequency := u16x4 l 98
  is_sensor_available := u16 l 106
  tilt_x := u16 l 108
  tilt_y := u16 l 110
  battery_voltage := u16 l 112
  pressure := u16 l 114
  temperature := u16 l 116
  ad_channel_6 := u16 l 118
  ad_channel_7 := u16 l 120

/-- Indexing a ctypes per-channel array (`self.ph.num_bins[chan]`): a 4-element
array raises `IndexError` when the index is out of range. -/
def ctGet (l : List ℕ) (i : ℕ) : Except PErr ℕ :=
  if i < l.length then .ok (l.getD i 0) else .error .indexError

/-- One output particle (`zplsc_particle_data` of `parse_record`).  The source
stores `str(serial_num)`; we keep the numeric value.  `freq`, `vals` and
`depth` are the per-channel (1..4) frequency / value / depth-range fields. -/
structure Particle where
  trans_timestamp : ℚ
  serial_number : ℕ
  phase : ℕ
  burst_number : ℕ
  tilt_x : ℕ
  tilt_y : ℕ
  battery_voltage : ℕ
  pressure : ℕ
  temperature : ℕ
  is_averaged_data : List ℕ
  freq : List ℚ
  vals : List (List ℚ)
  depth : List (List ℚ)
deriving DecidableEq, Inhabited, Repr

/-- Modelled from the spec: the external collaborator interfaces of §6
(`compute_echogram_metadata(header) -> (speed_of_sound, depth_range_per_channel,
sea_absorption_per_channel)` and `compute_backscatter(header, channel_arrays,
speed_of_sound, depth_range, sea_absorption) -> calibrated_channel_arrays`,
implemented outside the verified sources in
`mi/dataset/driver/zplsc_c/zplsc_c_echogram.py`), plus `rlog`, the abstraction
of the transcendental `np.log10` applied to the nonnegative integer linear
values (its value is irrelevant to every claim checked here). -/
structure Collab where
  rlog : ℕ → ℚ
  meta : AzfpProfileHeader → ℚ × List (List ℚ) × List ℚ
  bs : AzfpProfileHeader → List (List ℚ) → ℚ → List (List ℚ) → List ℚ → List (List ℚ)

/-- The static calibration coefficients `ZplscCCalibrationCoefficients.DS`
(floats in the source, exact rationals here). -/
def DS : List ℚ :=
  [2280000038445 / 100000000000000,
   2280000038445 / 100000000000000,
   2250000089407 / 100000000000000,
   2300000004470 / 100000000000000]

/-- The divisor of the averaged-data reconstruction (source lines 247-250):
`num_pings_profile * range_samples[chan]` when `is_averaged_pings` is truthy,
else `range_samples[chan]`. -/
def divisorFor (ph : AzfpProfileHeader) (chan : ℕ) : ℕ :=
  if ph.is_averaged_pings ≠ 0 then ph.num_pings_profile * ph.range_samples.getD chan 0
  else ph.range_samples.getD chan 0

/-- The reconstructed linear value of one averaged bin (source line 255):
`(sum + overflow * 0xFFFFFFFF) / divisor`.  numpy integer arrays under
Python 2 divide with floor division, and `x // 0 = 0` for numpy integers,
matching ℕ division. -/
def avgLinear (divisor b o : ℕ) : ℕ := (b + o * 4294967295) / divisor

/-- The logarithmic scaling of one averaged linear value (source lines
256-257): `(log10(v) - 2.5) * (8 * 0xFFFF) * DS[chan]`, with the `-inf`
produced by `log10(0)` clamped to 0 (`values[np.isinf(values)] = 0`; the only
infinite outcome on these nonnegative integers is `log10 0`). -/
def scaleVal (cb : Collab) (chan : ℕ) (v : ℕ) : ℚ :=
  if v = 0 then 0 else (cb.rlog v - 5 / 2) * 524280 * DS.getD chan 0

/-- The averaged-channel transform of source lines 247-258 applied elementwise
to the unpacked 32-bit linear sums and 8-bit overflow counts. -/
def avgValues (cb : Collab) (ph : AzfpProfileHeader) (chan : ℕ) (sums ovfs : List ℕ) : List ℚ :=
  List.zipWith (fun b o => scaleVal cb chan (avgLinear (divisorFor ph chan) b o)) sums ovfs

/-- Unpack consecutive big-endian 32-bit unsigned values (`struct` format
`>NI`); a trailing group of fewer than 4 bytes cannot occur on the exact-size
buffers the parser unpacks. -/
def unpack32 : List ℕ → List ℕ
  | a :: b :: c :: d :: t => (256 * (256 * (256 * a + b) + c) + d) :: unpack32 t
  | _ => []

/-- Unpack consecutive big-endian 16-bit unsigned values (`struct` format
`>NH`). -/
def unpack16 : List ℕ → List ℕ
  | a :: b :: t => (256 * a + b) :: unpack16 t
  | _ => []

/-- The per-channel loop of `parse_record` (source lines 224-258).  Arguments:
current channel index `chan`, number of channels still to process `n`
(`parse_record` starts it at `ph.num_channels`), the accumulated
`chan_values` list (initially `[[], [], [], []]`), and the remaining stream.
Returns the final `chan_values` (or the first error) together with the
remaining stream: a failing `read`+`unpack` consumes every byte it could read
(`read` returns short only at end of stream). -/
def chanLoop (cb : Collab) (ph : AzfpProfileHeader) :
    ℕ → ℕ → List (List ℚ) → List ℕ → (Except PErr (List (List ℚ))) × List ℕ
  | _, 0, cv, s => (.ok cv, s)
  | chan, n + 1, cv, s =>
    match ctGet ph.num_bins chan with
    | .error e => (.error e, s)
    | .ok bins =>
      if ph.is_averaged_data.getD chan 0 ≠ 0 then
        -- averaged: `>NI` sums then `>NB` overflow counts
        if s.length < 4 * bins then (.error .structError, s.drop (4 * bins))
        else
          let sums := unpack32 (s.take (4 * bins))
          let s1 := s.drop (4 * bins)
          if s1.length < bins then (.error .structError, s1.drop bins)
          else
            chanLoop cb ph (chan + 1) n (cv.set chan (avgValues cb ph chan sums (s1.take bins)))
              (s1.drop bins)
      else
        -- raw: `>NH` 16-bit counts, kept as plain numbers until `compute_backscatter`
        if s.length < 2 * bins then (.error .structError, s.drop (2 * bins))
        else
          chanLoop cb ph (chan + 1) n
            (cv.set chan ((unpack16 (s.take (2 * bins))).map (fun v => (v : ℚ))))
            (s.drop (2 * bins))

/-- Leap year as decided by the proleptic Gregorian calendar of Python's
`datetime`. -/
def isLeap (y : ℕ) : Bool := y % 4 == 0 && (y % 100 != 0 || y % 400 == 0)

/-- Cumulative days before each month in a non-leap year. -/
def monthDays : List ℕ := [31, 28, 31, 30, 31, 30, 31, 31, 30, 31, 30, 31]

/-- Days in the given month of the given year. -/
def daysInMonth (y m : ℕ) : ℕ :=
  monthDays.getD (m - 1) 0 + (if m == 2 && isLeap y then 1 else 0)

/-- Days before January 1 of year `y` in the proleptic Gregorian calendar
(the `_days_before_year` of CPython's datetime module). -/
def daysBeforeYear (y : ℕ) : ℕ :=
  365 * (y - 1) + (y - 1) / 4 - (y - 1) / 100 + (y - 1) / 400

/-- Days in year `y` before the first of month `m`. -/
def daysBeforeMonth (y m : ℕ) : ℕ :=
  ((monthDays.take (m - 1)).foldr (· + ·) 0) + (if 2 < m ∧ isLeap y then 1 else 0)

/-- `date.toordinal()`: day number of `y-m-d` counting 0001-01-01 as 1. -/
def toOrdinal (y m d : ℕ) : ℕ := daysBeforeYear y + daysBeforeMonth y m + d

/-- The calendar-component validation performed by the `datetime` constructor:
violating it raises `ValueError`. -/
def tsValidB (ph : AzfpProfileHeader) : Bool :=
  1 ≤ ph.year && ph.year ≤ 9999 && 1 ≤ ph.month && ph.month ≤ 12 &&
  1 ≤ ph.day && ph.day ≤ daysInMonth ph.year ph.month &&
  ph.hour ≤ 23 && ph.minute ≤ 59 && ph.second ≤ 59 &&
  ph.hundredths * 10000 ≤ 999999

/-- The record timestamp (source lines 261-263):
`(datetime(year, ..., second, hundredths*10000) - datetime(1900, 1, 1)).total_seconds()`,
i.e. the signed day-ordinal difference times 86400 plus the time of day, with
`hundredths * 10000` microseconds. -/
def timestamp1900 (ph : AzfpProfileHeader) : ℚ :=
  ((toOrdinal ph.year ph.month ph.day : ℤ) - (toOrdinal 1900 1 1 : ℤ)) * 86400 +
    ph.hour * 3600 + ph.minute * 60 + ph.second + (ph.hundredths * 10000 : ℚ) / 1000000

/-- Build `zplsc_particle_data` (source lines 270-293) from the header, the
timestamp, the backscatter-transformed channel values and the depth ranges. -/
def mkParticle (ph : AzfpProfileHeader) (ts : ℚ) (cv dr : List (List ℚ)) : Particle where
  trans_timestamp := ts
  serial_number := ph.serial_num
  phase := ph.phase
  burst_number := ph.burst_num
  tilt_x := ph.tilt_x
  tilt_y := ph.tilt_y
  battery_voltage := ph.battery_voltage
  pressure := ph.pressure
  temperature := ph.temperature
  is_averaged_data := ph.is_averaged_data
  freq := [(ph.frequency.getD 0 0 : ℚ), (ph.frequency.getD 1 0 : ℚ),
           (ph.frequency.getD 2 0 : ℚ), (ph.frequency.getD 3 0 : ℚ)]
  vals := [cv.getD 0 [], cv.getD 1 [], cv.getD 2 [], cv.getD 3 []]
  depth := [dr.getD 0 [], dr.getD 1 [], dr.getD 2 [], dr.getD 3 []]

/-- `parse_record` (source lines 216-295), given the already-decoded profile
header and the stream positioned after the header: run the channel loop, build
the timestamp (a `ValueError` on invalid calendar components), call the
external science helpers, and assemble the particle.  Indexing
`chan_values[0..3]` / `depth_range[0..3]` during assembly raises `IndexError`
when the helper returned fewer than 4 channel lists. -/
def parseRecord (cb : Collab) (ph : AzfpProfileHeader) (s : List ℕ) :
    (Except PErr Particle) × List ℕ :=
  match chanLoop cb ph 0 ph.num_channels [[], [], [], []] s with
  | (.error e, s2) => (.error e, s2)
  | (.ok cv, s2) =>
    if tsValidB ph then
      let m := cb.meta ph
      let dr := m.2.1
      let cv2 := cb.bs ph cv m.1 m.2.1 m.2.2
      if 4 ≤ cv2.length ∧ 4 ≤ dr.length then
        (.ok (mkParticle ph (timestamp1900 ph) cv2 dr), s2)
      else (.error .indexError, s2)
    else (.error .valueError, s2)

/-- `find_next_record` (source lines 205-214) as a scan over the remaining
stream.  The source keeps a 2-byte rolling window `delimiter`: it reads 2
bytes, and while the window is neither the delimiter `\xfd\x02` nor empty it
drops the oldest byte and reads one more.  At every loop head the window is
exactly the first `min 2 k` bytes of the `k` unconsumed bytes, so the loop is
equivalently a scan of the stream: stop when the next two bytes are 253, 2
(consuming them) or when no bytes remain; otherwise skip one byte and set the
(once-per-call) bad-delimiter flag.  Returns the remaining stream and whether
the "Invalid record delimiter" diagnostic is reported (exactly once per call
when any byte was skipped). -/
def fnrScan : List ℕ → Bool → List ℕ × Bool
  | [], bad => ([], bad)
  | [_], _ => ([], true)
  | a :: c :: t, bad => if a = 253 ∧ c = 2 then (t, bad) else fnrScan (c :: t) true

/-- Result of a whole-file parse: emitted particles (the `_record_buffer`),
number of diagnostics routed through the exception callback, and whether the
parse aborted with an uncaught exception. -/
structure PFResult where
  particles : List Particle
  numDiags : ℕ
  aborted : Bool
deriving DecidableEq, Inhabited, Repr

/-- The body of the `parse_file` loop (source lines 300-324), entered with the
stream positioned just after a delimiter search.  `readinto` fills a fresh
zero-initialised `AzfpProfileHeader` with up to 122 bytes and returns the
count, so the loop exits only on an empty stream and otherwise decodes the
(possibly zero-padded) header and runs `parse_record`.  `struct.error` and
`ValueError` report one diagnostic and continue with the next delimiter
search; an uncaught exception (`IndexError`) aborts the whole parse.  `fuel`
bounds the recursion; every iteration consumes at least one byte, so any
`fuel ≥ s.length` computes the true result (`pfGo_fuel` below). -/
def pfGo (cb : Collab) : ℕ → List ℕ → PFResult
  | 0, _ => ⟨[], 0, false⟩
  | fuel + 1, s =>
    if s.isEmpty then ⟨[], 0, false⟩
    else
      let ph := decodeHeader (s.take 122)
      match parseRecord cb ph (s.drop 122) with
      | (.ok p, s2) =>
        let fr := fnrScan s2 false
        let r := pfGo cb fuel fr.1
        ⟨p :: r.particles, (if fr.2 then 1 else 0) + r.numDiags, r.aborted⟩
      | (.error .indexError, _) => ⟨[], 0, true⟩
      | (.error _, s2) =>
        let fr := fnrScan s2 false
        let r := pfGo cb fuel fr.1
        ⟨r.particles, 1 + (if fr.2 then 1 else 0) + r.numDiags, r.aborted⟩

/-- `parse_file` (source lines 297-324): an initial `find_next_record`, then
the header/record loop. -/
def parseFile (cb : Collab) (s : List ℕ) : PFResult :=
  let fr := fnrScan s false
  let r := pfGo cb (fr.1.length + 1) fr.1
  ⟨r.particles, (if fr.2 then 1 else 0) + r.numDiags, r.aborted⟩

/-! ## Record well-formedness

The input format (spec §6): each record is the 2-byte delimiter `0xFD 0x02`,
122 header bytes, and a channel body whose length is derived from the header:
`num_bins[chan] * 4 + num_bins[chan]` bytes per averaged channel and
`num_bins[chan] * 2` per raw channel, channels `0 .. num_channels - 1`. -/

/-- Byte length of the body of channel `c` as derived from the header. -/
def chanByteLen (ph : AzfpProfileHeader) (c : ℕ) : ℕ :=
  if ph.is_averaged_data.getD c 0 ≠ 0 then 5 * ph.num_bins.getD c 0
  else 2 * ph.num_bins.getD c 0

/-- Total body length of channels `chan, chan+1, ..., chan+n-1`. -/
def lenFrom (ph : AzfpProfileHeader) : ℕ → ℕ → ℕ
  | _, 0 => 0
  | chan, n + 1 => chanByteLen ph chan + lenFrom ph (chan + 1) n

/-- The full channel-body length derived from the header. -/
def bodyLen (ph : AzfpProfileHeader) : ℕ := lenFrom ph 0 ph.num_channels

/-- A record given as its header bytes and body bytes (delimiter excluded). -/
structure WFRec where
  hdr : List ℕ
  body : List ℕ
deriving DecidableEq, Inhabited, Repr

/-- The byte encoding of a record: delimiter, header, body. -/
def WFRec.bytes (R : WFRec) : List ℕ := 253 :: 2 :: (R.hdr ++ R.body)

/-- Header and body of a record without the delimiter. -/
def WFRec.core (R : WFRec) : List ℕ := R.hdr ++ R.body

/-- Well-formedness of a record: 122 header bytes, a body of exactly the
derived length, a channel count the 4-element ctypes arrays can index, and
calendar components the `datetime` constructor accepts. -/
def wfRec (R : WFRec) : Prop :=
  R.hdr.length = 122 ∧
  R.body.length = bodyLen (decodeHeader R.hdr) ∧
  (decodeHeader R.hdr).num_channels ≤ 4 ∧
  tsValidB (decodeHeader R.hdr) = true

instance (R : WFRec) : Decidable (wfRec R) := by unfold wfRec; infer_instance

/-- Concatenated byte encoding of a list of records. -/
def recsBytes (rs : List WFRec) : List ℕ := (rs.map WFRec.bytes).flatten

/-- The particle a record decodes to (meaningful when the decode succeeds). -/
def particleFor (cb : Collab) (R : WFRec) : Particle :=
  match parseRecord cb (decodeHeader R.hdr) R.body with
  | (.ok p, _) => p
  | _ => default

/-- The collaborator contract of spec §6: `compute_echogram_metadata` returns
one depth-range array per channel (4 of them) and `compute_backscatter`
returns as many calibrated channel arrays as it is given. -/
def CollabOK (cb : Collab) : Prop :=
  (∀ ph, ((cb.meta ph).2.1).length = 4) ∧
  (∀ ph v ss dr sa, (cb.bs ph v ss dr sa).length = v.length)

/-! ## Test-data builders (big-endian encoders, inverse of the header layout) -/

/-- Big-endian 2-byte encoding. -/
def enc16 (v : ℕ) : List ℕ := [v / 256 % 256, v % 256]

/-- 1-byte encoding. -/
def enc8 (v : ℕ) : List ℕ := [v % 256]

/-- Big-endian 4-byte encoding. -/
def enc32 (v : ℕ) : List ℕ :=
  [v / 16777216 % 256, v / 65536 % 256, v / 256 % 256, v % 256]

/-- Encode four 16-bit values. -/
def enc16x4 (l : List ℕ) : List ℕ := (l.map enc16).flatten

/-- Encode four 8-bit values. -/
def enc8x4 (l : List ℕ) : List ℕ := (l.map enc8).flatten

/-- Encode a header back to its 122-byte layout (test-data builder). -/
def encodeHeader (ph : AzfpProfileHeader) : List ℕ :=
  enc16 ph.burst_num ++ enc16 ph.serial_num ++ enc16 ph.ping_status ++
  enc32 ph.burst_interval ++ enc16 ph.year ++ enc16 ph.month ++ enc16 ph.day ++
  enc16 ph.hour ++ enc16 ph.minute ++ enc16 ph.second ++ enc16 ph.hundredths ++
  enc16x4 ph.digitization_rate ++ enc16x4 ph.lockout_index ++ enc16x4 ph.num_bins ++
  enc16x4 ph.range_samples ++ enc16 ph.num_pings_profile ++ enc16 ph.is_averaged_pings ++
  enc16 ph.num_pings_burst ++ enc16 ph.ping_period ++ enc16 ph.first_ping ++
  enc16 ph.second_ping ++ enc8x4 ph.is_averaged_data ++ enc16 ph.error_num ++
  enc8 ph.phase ++ enc8 ph.is_overrun ++ enc8 ph.num_channels ++ enc8x4 ph.gain ++
  enc8 ph.spare ++ enc16x4 ph.pulse_length ++ enc16x4 ph.board_num ++
  enc16x4 ph.frequency ++ enc16 ph.is_sensor_available ++ enc16 ph.tilt_x ++
  enc16 ph.tilt_y ++ enc16 ph.battery_voltage ++ enc16 ph.pressure ++
  enc16 ph.temperature ++ enc16 ph.ad_channel_6 ++ enc16 ph.ad_channel_7

/-- Big-endian 4-byte encoding of a list of 32-bit values. -/
def pack32 : List ℕ → List ℕ
  | [] => []
  | v :: t => v / 16777216 % 256 :: v / 65536 % 256 :: v / 256 % 256 :: v % 256 :: pack32 t

/-- Big-endian 2-byte encoding of a list of 16-bit values. -/
def pack16 : List ℕ → List ℕ
  | [] => []
  | v :: t => v / 256 % 256 :: v % 256 :: pack16 t

/-- A concrete instantiation of the external collaborators used by the closed
counterexamples and witnesses: `rlog` is the numeric identity,
`compute_echogram_metadata` returns four empty depth ranges, and
`compute_backscatter` returns the channel arrays unchanged. -/
def cb0 : Collab where
  rlog := fun n => (n : ℚ)
  meta := fun _ => (0, ([[], [], [], []], []))
  bs := fun _ v _ _ _ => v

/-! ## Lemmas about the delimiter scan -/

/-- A gap of garbage bytes that contains no delimiter pair: no two adjacent
bytes of `g` are 253, 2 (reading one byte past the end as 0). -/
def gapOK (g : List ℕ) : Prop :=
  ∀ i, i < g.length → ¬(g.getD i 0 = 253 ∧ g.getD (i + 1) 0 = 2)

instance (g : List ℕ) : Decidable (gapOK g) := by unfold gapOK; infer_instance

/-! ## Spec-side calendar arithmetic (for the timestamp claim)

An independent formulation of "seconds since 1900-01-01T00:00:00", built by
summing whole-year lengths from 1900 instead of the ordinal arithmetic of the
`datetime` embedding above, to compare the two. -/

/-- Days in year `y`. -/
def yearLength (y : ℕ) : ℕ := if isLeap y then 366 else 365

/-- Signed number of days from 1900-01-01 to the January 1 of year `y`. -/
def daysFrom1900 (y : ℕ) : ℤ :=
  if 1900 ≤ y then ((Finset.Ico 1900 y).sum yearLength : ℕ)
  else -(((Finset.Ico y 1900).sum yearLength : ℕ) : ℤ)

/-- Seconds from 1900-01-01T00:00:00 to the instant
`y-m-d h:mi:s` + `hund` hundredths, by direct calendar difference:
whole days elapsed (years from 1900, plus completed days in the current year)
times 86400, plus the time of day, plus `hund * 10000` microseconds. -/
def specSecondsSince1900 (y m d h mi s hund : ℕ) : ℚ :=
  ((daysFrom1900 y + daysBeforeMonth y m + d - 1 : ℤ) : ℚ) * 86400 +
    h * 3600 + mi * 60 + s + (hund * 10000 : ℚ) / 1000000

/-! ## Concrete test data for the closed counterexamples and witnesses -/

/-- A valid header with no channels (date 2014-08-17 12:55:00). -/
def exH0 : AzfpProfileHeader where
  burst_num := 3
  serial_num := 55077
  ping_status := 0
  burst_interval := 60
  year := 2014
  month := 8
  day := 17
  hour := 12
  minute := 55
  second := 0
  hundredths := 0
  digitization_rate := [64000, 64000, 64000, 64000]
  lockout_index := [0, 0, 0, 0]
  num_bins := [0, 0, 0, 0]
  range_samples := [1, 1, 1, 1]
  num_pings_profile := 1
  is_averaged_pings := 0
  num_pings_burst := 1
  ping_period := 1
  first_ping := 1
  second_ping := 1
  is_averaged_data := [0, 0, 0, 0]
  error_num := 0
  phase := 1
  is_overrun := 0
  num_channels := 0
  gain := [0, 0, 0, 0]
  spare := 0
  pulse_length := [300, 300, 300, 300]
  board_num := [0, 1, 2, 3]
  frequency := [38, 125, 200, 455]
  is_sensor_available := 1
  tilt_x := 100
  tilt_y := 200
  battery_voltage := 300
  pressure := 400
  temperature := 500
  ad_channel_6 := 0
  ad_channel_7 := 0

/-- A valid header with one averaged channel of one bin, where
`num_bins[0] = 1` differs from `range_samples[0] = 3` (so the two candidate
divisors disagree). -/
def exH1 : AzfpProfileHeader :=
  { exH0 with
    num_channels := 1
    num_bins := [1, 0, 0, 0]
    range_samples := [3, 0, 0, 0]
    is_averaged_data := [1, 0, 0, 0]
    num_pings_profile := 7
    serial_num := 42 }

/-- Like `exH1` but with `range_samples[0] = 1`, so the divisor is 1 and the
overflow multiplier is directly observable. -/
def exH2 : AzfpProfileHeader := { exH1 with range_samples := [1, 0, 0, 0] }

/-- A valid header with one raw (non-averaged) channel of one bin. -/
def exHraw : AzfpProfileHeader :=
  { exH1 with
    is_averaged_data := [0, 0, 0, 0]
    range_samples := [1, 0, 0, 0] }

/-- A header declaring 5 channels (more than the 4-element ctypes arrays). -/
def exHbad : AzfpProfileHeader := { exH0 with num_channels := 5 }

/-- Record with no channel data. -/
def exR0 : WFRec := ⟨encodeHeader exH0, []⟩

/-- Record with one averaged channel: linear sum 21, overflow 0. -/
def exR1 : WFRec := ⟨encodeHeader exH1, [0, 0, 0, 21, 0]⟩

/-- Record with one raw channel holding the 16-bit count 5. -/
def exRraw : WFRec := ⟨encodeHeader exHraw, [0, 5]⟩

/-- `exRraw` with its channel-body bytes corrupted in place (same length). -/
def exRrawC : WFRec := ⟨encodeHeader exHraw, [9, 9]⟩

theorem gapOK_tail {a : ℕ} {l : List ℕ} (h : gapOK (a :: l)) : gapOK l := by
  intro i hi
  have := h (i + 1) (by simpa using Nat.succ_lt_succ hi)
  simpa using this

/-- Scanning from an exact delimiter consumes it and reports nothing new. -/
theorem fnrScan_delim (t : List ℕ) (b : Bool) : fnrScan (253 :: 2 :: t) b = (t, b) := by
  simp [fnrScan]

/-- Scanning an empty stream stops at once. -/
theorem fnrScan_nil (b : Bool) : fnrScan [] b = ([], b) := rfl

/-- The scan never grows the stream. -/
theorem fnrScan_length : ∀ (v : List ℕ) (b : Bool), ((fnrScan v b).1).length ≤ v.length := by
  intro v
  induction v with
  | nil => intro b; simp [fnrScan]
  | cons a t ih =>
    intro b
    cases t with
    | nil => simp [fnrScan]
    | cons c t' =>
      by_cases h : a = 253 ∧ c = 2
      · simp [fnrScan, h]; omega
      · simp only [fnrScan, if_neg h]
        exact le_trans (ih true) (by simp)

/-- Resynchronisation across a delimiter-free gap: the scan skips the whole
gap, consumes the following delimiter, and reports the bad-delimiter
diagnostic (once). -/
theorem fnrScan_gap (g : List ℕ) (hne : g ≠ []) (hok : gapOK g) :
    ∀ (t : List ℕ) (b : Bool), fnrScan (g ++ 253 :: 2 :: t) b = (t, true) := by
  induction g with
  | nil => exact absurd rfl hne
  | cons a g ih =>
    intro t b
    cases g with
    | nil =>
      have h2 : ¬(a = 253 ∧ (253 : ℕ) = 2) := by omega
      simp only [List.cons_append, List.nil_append, fnrScan, if_neg h2]
      exact fnrScan_delim t true
    | cons c g' =>
      have hac : ¬(a = 253 ∧ c = 2) := by
        have := hok 0 (by simp)
        simpa using this
      simp only [List.cons_append, fnrScan, if_neg hac]
      exact ih (by simp) (gapOK_tail hok) t true

/-! ## Consumption bounds -/

theorem chanLoop_length (cb : Collab) (ph : AzfpProfileHeader) :
    ∀ (n chan : ℕ) (cv : List (List ℚ)) (s : List ℕ),
      ((chanLoop cb ph chan n cv s).2).length ≤ s.length := by
  intro n
  induction n with
  | zero => intro chan cv s; simp [chanLoop]
  | succ n ih =>
    intro chan cv s
    simp only [chanLoop]
    split
    · simp
    · split
      · split
        · simp
        · split
          · simp only [List.length_drop]; omega
          · refine le_trans (ih _ _ _) ?_
            simp only [List.length_drop]; omega
      · split
        · simp
        · refine le_trans (ih _ _ _) ?_
          simp

theorem parseRecord_length (cb : Collab) (ph : AzfpProfileHeader) (s : List ℕ) :
    ((parseRecord cb ph s).2).length ≤ s.length := by
  have h := chanLoop_length cb ph ph.num_channels 0 [[], [], [], []] s
  simp only [parseRecord]
  rcases hc : chanLoop cb ph 0 ph.num_channels [[], [], [], []] s with ⟨res, s2⟩
  rw [hc] at h
  cases res with
  | error e => simpa using h
  | ok cv =>
    simp only []
    split <;> [skip; simpa using h]
    split <;> simpa using h

/-- The channel loop consumes exactly the derived body length: on a stream
`body ++ rest` with `body` of exactly the derived length it succeeds, leaves
`rest`, and touches only the channel slots it processes. -/
theorem chanLoop_exact (cb : Collab) (ph : AzfpProfileHeader) (hb : ph.num_bins.length = 4) :
    ∀ (n chan : ℕ) (cv : List (List ℚ)) (body : List ℕ),
      body.length = lenFrom ph chan n → chan + n ≤ 4 →
      ∃ cv', (∀ rest, chanLoop cb ph chan n cv (body ++ rest) = (.ok cv', rest)) ∧
        cv'.length = cv.length ∧ (∀ j, j < chan → cv'.getD j [] = cv.getD j []) := by
  intro n
  induction n with
  | zero =>
    intro chan cv body hlen _
    have hnil : body = [] := List.eq_nil_of_length_eq_zero (by simpa [lenFrom] using hlen)
    subst hnil
    exact ⟨cv, fun rest => by simp [chanLoop], rfl, fun j _ => rfl⟩
  | succ n ih =>
    intro chan cv body hlen h4
    have hchan : chan < ph.num_bins.length := by omega
    have hct : ctGet ph.num_bins chan = .ok (ph.num_bins.getD chan 0) := by
      simp [ctGet, hchan]
    have hlf : lenFrom ph chan (n + 1) = chanByteLen ph chan + lenFrom ph (chan + 1) n := rfl
    by_cases hA : ph.is_averaged_data.getD chan 0 ≠ 0
    · -- averaged channel: 4*bins sum bytes then bins overflow bytes
      have hcl : chanByteLen ph chan = 5 * ph.num_bins.getD chan 0 := by
        simp only [chanByteLen]; rw [if_pos hA]
      have hlen5 : body.length = 5 * ph.num_bins.getD chan 0 + lenFrom ph (chan + 1) n := by
        rw [hlen, hlf, hcl]
      obtain ⟨cv'', hrec, hrlen, hrget⟩ :=
        ih (chan + 1)
          (cv.set chan (avgValues cb ph chan
            (unpack32 (body.take (4 * ph.num_bins.getD chan 0)))
            ((body.drop (4 * ph.num_bins.getD chan 0)).take (ph.num_bins.getD chan 0))))
          ((body.drop (4 * ph.num_bins.getD chan 0)).drop (ph.num_bins.getD chan 0))
          (by simp only [List.length_drop]; omega) (by omega)
      refine ⟨cv'', fun rest => ?_, by rw [hrlen, List.length_set], fun j hj => ?_⟩
      · have h1 : ¬((body ++ rest).length < 4 * ph.num_bins.getD chan 0) := by
          simp only [List.length_append]; omega
        have h2 : ¬((body.drop (4 * ph.num_bins.getD chan 0) ++ rest).length <
            ph.num_bins.getD chan 0) := by
          simp only [List.length_drop, List.length_append]; omega
        have ht1 : (body ++ rest).take (4 * ph.num_bins.getD chan 0) =
            body.take (4 * ph.num_bins.getD chan 0) :=
          List.take_append_of_le_length (by omega)
        have hd1 : (body ++ rest).drop (4 * ph.num_bins.getD chan 0) =
            body.drop (4 * ph.num_bins.getD chan 0) ++ rest :=
          List.drop_append_of_le_length (by omega)
        have ht2 : (body.drop (4 * ph.num_bins.getD chan 0) ++ rest).take
            (ph.num_bins.getD chan 0) =
            (body.drop (4 * ph.num_bins.getD chan 0)).take (ph.num_bins.getD chan 0) :=
          List.take_append_of_le_length (by simp only [List.length_drop]; omega)
        have hd2 : (body.drop (4 * ph.num_bins.getD chan 0) ++ rest).drop
            (ph.num_bins.getD chan 0) =
            (body.drop (4 * ph.num_bins.getD chan 0)).drop (ph.num_bins.getD chan 0) ++ rest :=
          List.drop_append_of_le_length (by simp only [List.length_drop]; omega)
        simp only [chanLoop, hct, if_pos hA, if_neg h1, hd1, if_neg h2, ht1, ht2, hd2]
        exact hrec rest
      · rw [hrget j (by omega)]
        simp [List.getD, List.getElem?_set_ne (show chan ≠ j by omega)]
    · -- raw channel: 2*bins count bytes
      have hcl : chanByteLen ph chan = 2 * ph.num_bins.getD chan 0 := by
        simp only [chanByteLen]; rw [if_neg hA]
      have hlen2 : body.length = 2 * ph.num_bins.getD chan 0 + lenFrom ph (chan + 1) n := by
        rw [hlen, hlf, hcl]
      obtain ⟨cv'', hrec, hrlen, hrget⟩ :=
        ih (chan + 1)
          (cv.set chan ((unpack16 (body.take (2 * ph.num_bins.getD chan 0))).map
            (fun v => (v : ℚ))))
          (body.drop (2 * ph.num_bins.getD chan 0))
          (by simp only [List.length_drop]; omega) (by omega)
      refine ⟨cv'', fun rest => ?_, by rw [hrlen, List.length_set], fun j hj => ?_⟩
      · have h1 : ¬((body ++ rest).length < 2 * ph.num_bins.getD chan 0) := by
          simp only [List.length_append]; omega
        have ht1 : (body ++ rest).take (2 * ph.num_bins.getD chan 0) =
            body.take (2 * ph.num_bins.getD chan 0) :=
          List.take_append_of_le_length (by omega)
        have hd1 : (body ++ rest).drop (2 * ph.num_bins.getD chan 0) =
            body.drop (2 * ph.num_bins.getD chan 0) ++ rest :=
          List.drop_append_of_le_length (by omega)
        simp only [chanLoop, hct, if_neg hA, if_neg h1, ht1, hd1]
        exact hrec rest
      · rw [hrget j (by omega)]
        simp [List.getD, List.getElem?_set_ne (show chan ≠ j by omega)]

/-- On a stream starting with a body of exactly the derived length, a record
with a valid header decodes to one particle, consumes exactly its body, and
the particle's scalar fields are the header's. -/
theorem parseRecord_exact (cb : Collab) (hcb : CollabOK cb) (ph : AzfpProfileHeader)
    (hb : ph.num_bins.length = 4) (hnc : ph.num_channels ≤ 4) (hts : tsValidB ph = true)
    (body : List ℕ) (hlen : body.length = bodyLen ph) :
    ∃ p, (∀ rest, parseRecord cb ph (body ++ rest) = (.ok p, rest)) ∧
      p.serial_number = ph.serial_num ∧ p.phase = ph.phase ∧
      p.burst_number = ph.burst_num ∧ p.tilt_x = ph.tilt_x ∧ p.tilt_y = ph.tilt_y ∧
      p.battery_voltage = ph.battery_voltage ∧ p.pressure = ph.pressure ∧
      p.temperature = ph.temperature := by
  obtain ⟨cv', hcv, hcvlen, _⟩ :=
    chanLoop_exact cb ph hb ph.num_channels 0 [[], [], [], []] body hlen (by omega)
  have hcvlen4 : cv'.length = 4 := by simpa using hcvlen
  have hguard : 4 ≤ (cb.bs ph cv' (cb.meta ph).1 (cb.meta ph).2.1 (cb.meta ph).2.2).length ∧
      4 ≤ ((cb.meta ph).2.1).length := by
    rw [hcb.2, hcvlen4, hcb.1]
    exact ⟨le_refl 4, le_refl 4⟩
  refine ⟨mkParticle ph (timestamp1900 ph)
      (cb.bs ph cv' (cb.meta ph).1 (cb.meta ph).2.1 (cb.meta ph).2.2) (cb.meta ph).2.1,
    fun rest => ?_, rfl, rfl, rfl, rfl, rfl, rfl, rfl, rfl⟩
  simp only [parseRecord, hcv rest, hts, if_true, if_pos hguard]

theorem pfGo_nil (cb : Collab) : ∀ (f : ℕ), pfGo cb f [] = ⟨[], 0, false⟩ := by
  intro f; cases f <;> simp [pfGo]

/-- Fuel irrelevance: once the fuel is at least the stream length, `pfGo`
computes the unique fixed-point semantics of the parse loop (each iteration
consumes at least one byte). -/
theorem pfGo_fuel (cb : Collab) :
    ∀ (f g : ℕ) (s : List ℕ), s.length ≤ f → s.length ≤ g → pfGo cb f s = pfGo cb g s := by
  intro f
  induction f with
  | zero =>
    intro g s hf _
    have : s = [] := List.eq_nil_of_length_eq_zero (Nat.le_zero.1 hf)
    subst this
    rw [pfGo_nil, pfGo_nil]
  | succ f ih =>
    intro g s hf hg
    by_cases hs : s = []
    · subst hs; rw [pfGo_nil, pfGo_nil]
    · have hlen : 1 ≤ s.length := by
        cases s with
        | nil => exact absurd rfl hs
        | cons a t => simp
      cases g with
      | zero => omega
      | succ g =>
        have hcons : ∀ (s2 : List ℕ), ((parseRecord cb (decodeHeader (s.take 122)) (s.drop 122)).2 = s2) →
            ((fnrScan s2 false).1).length ≤ f ∧ ((fnrScan s2 false).1).length ≤ g := by
          intro s2 h2
          have hb : s2.length ≤ (s.drop 122).length := by
            rw [← h2]; exact parseRecord_length cb _ _
          have hd : (s.drop 122).length ≤ s.length - 1 := by simp; omega
          have := fnrScan_length s2 false
          constructor <;> omega
        simp only [pfGo, if_neg (by simpa [List.isEmpty_iff] using hs)]
        rcases hpr : parseRecord cb (decodeHeader (s.take 122)) (s.drop 122) with ⟨res, s2⟩
        have hfl := hcons s2 (by rw [hpr])
        cases res with
        | ok p => simp only []; rw [ih g (fnrScan s2 false).1 hfl.1 hfl.2]
        | error e =>
          cases e with
          | structError => simp only []; rw [ih g (fnrScan s2 false).1 hfl.1 hfl.2]
          | valueError => simp only []; rw [ih g (fnrScan s2 false).1 hfl.1 hfl.2]
          | indexError => simp only []

/-! ## The frame property of the parse loop -/

theorem recsBytes_nil : recsBytes [] = [] := rfl

theorem recsBytes_cons (R : WFRec) (rs : List WFRec) :
    recsBytes (R :: rs) = R.bytes ++ recsBytes rs := by
  simp [recsBytes]

theorem parseFile_nil (cb : Collab) : parseFile cb [] = ⟨[], 0, false⟩ := rfl

/-- A well-formed record decodes to exactly the particle `particleFor cb R`,
whose scalar fields are the decoded header's. -/
theorem particleFor_spec (cb : Collab) (hcb : CollabOK cb) (R : WFRec) (hR : wfRec R) :
    (∀ rest, parseRecord cb (decodeHeader R.hdr) (R.body ++ rest) =
      (.ok (particleFor cb R), rest)) ∧
    (particleFor cb R).serial_number = (decodeHeader R.hdr).serial_num ∧
    (particleFor cb R).phase = (decodeHeader R.hdr).phase ∧
    (particleFor cb R).burst_number = (decodeHeader R.hdr).burst_num ∧
    (particleFor cb R).tilt_x = (decodeHeader R.hdr).tilt_x ∧
    (particleFor cb R).tilt_y = (decodeHeader R.hdr).tilt_y ∧
    (particleFor cb R).battery_voltage = (decodeHeader R.hdr).battery_voltage ∧
    (particleFor cb R).pressure = (decodeHeader R.hdr).pressure ∧
    (particleFor cb R).temperature = (decodeHeader R.hdr).temperature := by
  obtain ⟨p, heq, hs⟩ := parseRecord_exact cb hcb (decodeHeader R.hdr) rfl hR.2.2.1 hR.2.2.2
    R.body hR.2.1
  have hpf : particleFor cb R = p := by
    have h0 := heq []
    rw [List.append_nil] at h0
    simp [particleFor, h0]
  rw [hpf]
  exact ⟨heq, hs⟩

/-- The frame property: a prefix of well-formed records contributes exactly
its own particles and no diagnostics, and the fate of the remaining suffix —
parsed with a freshly zero-initialised header each iteration — is independent
of the records before it. -/
theorem parseFile_frame (cb : Collab) (hcb : CollabOK cb) :
    ∀ (rs : List WFRec), (∀ R ∈ rs, wfRec R) → ∀ (suffix : List ℕ),
      parseFile cb (recsBytes rs ++ suffix) =
        ⟨rs.map (particleFor cb) ++ (parseFile cb suffix).particles,
         (parseFile cb suffix).numDiags, (parseFile cb suffix).aborted⟩ := by
  intro rs
  induction rs with
  | nil => intro _ suffix; simp [recsBytes_nil]
  | cons R rs ih =>
    intro hwf suffix
    have hR : wfRec R := hwf R (by simp)
    have hrest : ∀ R' ∈ rs, wfRec R' := fun R' h => hwf R' (by simp [h])
    -- the stream of the head record followed by everything else
    have hstream : recsBytes (R :: rs) ++ suffix =
        253 :: 2 :: (R.hdr ++ (R.body ++ (recsBytes rs ++ suffix))) := by
      simp [recsBytes_cons, WFRec.bytes, List.append_assoc]
    set X : List ℕ := recsBytes rs ++ suffix with hX
    set T : List ℕ := R.hdr ++ (R.body ++ X) with hT
    have hTne : ¬T.isEmpty := by
      have : 122 ≤ T.length := by
        simp only [hT, List.length_append, hR.1]; omega
      cases hTe : T with
      | nil => rw [hTe] at this; simp at this
      | cons a t => simp
    have htake : T.take 122 = R.hdr := by
      rw [hT]; exact List.take_left' hR.1
    have hdrop : T.drop 122 = R.body ++ X := by
      rw [hT]; exact List.drop_left' hR.1
    have hpr : parseRecord cb (decodeHeader (T.take 122)) (T.drop 122) =
        (.ok (particleFor cb R), X) := by
      rw [htake, hdrop]
      exact (particleFor_spec cb hcb R hR).1 X
    -- one unfolding of the loop body
    have hstep : ∀ (f : ℕ), pfGo cb (f + 1) T =
        ⟨particleFor cb R :: (pfGo cb f (fnrScan X false).1).particles,
         (if (fnrScan X false).2 then 1 else 0) + (pfGo cb f (fnrScan X false).1).numDiags,
         (pfGo cb f (fnrScan X false).1).aborted⟩ := by
      intro f
      simp only [pfGo, if_neg hTne, hpr]
    have hfuel : pfGo cb T.length (fnrScan X false).1 =
        pfGo cb (((fnrScan X false).1).length + 1) (fnrScan X false).1 := by
      apply pfGo_fuel
      · have h1 := fnrScan_length X false
        have h2 : X.length ≤ T.length := by
          simp only [hT, List.length_append]; omega
        omega
      · omega
    have hLHS : parseFile cb (recsBytes (R :: rs) ++ suffix) =
        ⟨particleFor cb R :: (parseFile cb X).particles,
         (parseFile cb X).numDiags, (parseFile cb X).aborted⟩ := by
      rw [hstream]
      show (let fr := fnrScan (253 :: 2 :: T) false
            let r := pfGo cb (fr.1.length + 1) fr.1
            PFResult.mk r.particles ((if fr.2 then 1 else 0) + r.numDiags) r.aborted) = _
      rw [fnrScan_delim]
      simp only []
      rw [hstep T.length, hfuel]
      simp only [parseFile]
      simp
    rw [hLHS, ih hrest suffix]
    simp

/-- Prepending a delimiter-free nonempty gap to a stream that starts with a
delimiter leaves the particles unchanged and adds exactly one diagnostic. -/
theorem parseFile_gapshift (cb : Collab) (g : List ℕ) (hg : g ≠ []) (hok : gapOK g)
    (Y : List ℕ) :
    parseFile cb (g ++ (253 :: 2 :: Y)) =
      ⟨(parseFile cb (253 :: 2 :: Y)).particles,
       (parseFile cb (253 :: 2 :: Y)).numDiags + 1,
       (parseFile cb (253 :: 2 :: Y)).aborted⟩ := by
  simp only [parseFile, fnrScan_gap g hg hok Y false, fnrScan_delim]
  simp; omega

/-- When the stream holds fewer bytes than the derived body length, the
channel loop fails with `struct.error` having consumed the whole stream. -/
theorem chanLoop_underflow (cb : Collab) (ph : AzfpProfileHeader)
    (hb : ph.num_bins.length = 4) :
    ∀ (n chan : ℕ) (cv : List (List ℚ)) (s : List ℕ),
      s.length < lenFrom ph chan n → chan + n ≤ 4 →
      chanLoop cb ph chan n cv s = (.error .structError, []) := by
  intro n
  induction n with
  | zero => intro chan cv s hlt _; simp [lenFrom] at hlt
  | succ n ih =>
    intro chan cv s hlt h4
    have hchan : chan < ph.num_bins.length := by omega
    have hct : ctGet ph.num_bins chan = .ok (ph.num_bins.getD chan 0) := by
      simp [ctGet, hchan]
    have hlf : lenFrom ph chan (n + 1) = chanByteLen ph chan + lenFrom ph (chan + 1) n := rfl
    by_cases hA : ph.is_averaged_data.getD chan 0 ≠ 0
    · have hcl : chanByteLen ph chan = 5 * ph.num_bins.getD chan 0 := by
        simp only [chanByteLen]; rw [if_pos hA]
      by_cases h1 : s.length < 4 * ph.num_bins.getD chan 0
      · have hd : s.drop (4 * ph.num_bins.getD chan 0) = [] :=
          List.drop_eq_nil_iff.2 (by omega)
        simp only [chanLoop, hct, if_pos hA, if_pos h1, hd]
      · by_cases h2 : (s.drop (4 * ph.num_bins.getD chan 0)).length < ph.num_bins.getD chan 0
        · have hd : (s.drop (4 * ph.num_bins.getD chan 0)).drop (ph.num_bins.getD chan 0) = [] :=
            List.drop_eq_nil_iff.2 (by omega)
          simp only [chanLoop, hct, if_pos hA, if_neg h1, if_pos h2, hd]
        · have hrec := ih (chan + 1) (cv.set chan (avgValues cb ph chan
              (unpack32 (s.take (4 * ph.num_bins.getD chan 0)))
              ((s.drop (4 * ph.num_bins.getD chan 0)).take (ph.num_bins.getD chan 0))))
            ((s.drop (4 * ph.num_bins.getD chan 0)).drop (ph.num_bins.getD chan 0))
            (by simp only [List.length_drop] at *; omega) (by omega)
          simp only [chanLoop, hct, if_pos hA, if_neg h1, if_neg h2, hrec]
    · have hcl : chanByteLen ph chan = 2 * ph.num_bins.getD chan 0 := by
        simp only [chanByteLen]; rw [if_neg hA]
      by_cases h1 : s.length < 2 * ph.num_bins.getD chan 0
      · have hd : s.drop (2 * ph.num_bins.getD chan 0) = [] :=
          List.drop_eq_nil_iff.2 (by omega)
        simp only [chanLoop, hct, if_neg hA, if_pos h1, hd]
      · have hrec := ih (chan + 1)
            (cv.set chan ((unpack16 (s.take (2 * ph.num_bins.getD chan 0))).map
              (fun v => (v : ℚ))))
            (s.drop (2 * ph.num_bins.getD chan 0))
            (by simp only [List.length_drop] at *; omega) (by omega)
        simp only [chanLoop, hct, if_neg hA, if_neg h1, hrec]

/-- A successful channel loop keeps the list at length `cv` and leaves every
slot at or above the processed range untouched. -/
theorem chanLoop_ok_frame (cb : Collab) (ph : AzfpProfileHeader) :
    ∀ (n chan : ℕ) (cv : List (List ℚ)) (s : List ℕ) (cv' : List (List ℚ)) (s' : List ℕ),
      chanLoop cb ph chan n cv s = (.ok cv', s') →
      cv'.length = cv.length ∧ ∀ j, chan + n ≤ j → cv'.getD j [] = cv.getD j [] := by
  intro n
  induction n with
  | zero =>
    intro chan cv s cv' s' h
    simp only [chanLoop] at h
    obtain ⟨h1, _⟩ := Prod.mk.injEq .. ▸ h
    cases h
    exact ⟨rfl, fun j _ => rfl⟩
  | succ n ih =>
    intro chan cv s cv' s' h
    simp only [chanLoop] at h
    rcases hct : ctGet ph.num_bins chan with e | bins <;> rw [hct] at h
    · simp at h
    · simp only [] at h
      split at h
      · split at h
        · simp at h
        · split at h
          · simp at h
          · obtain ⟨hlen, hget⟩ := ih _ _ _ _ _ h
            rw [List.length_set] at hlen
            refine ⟨hlen, fun j hj => ?_⟩
            rw [hget j (by omega)]
            simp [List.getD, List.getElem?_set_ne (show chan ≠ j by omega)]
      · split at h
        · simp at h
        · obtain ⟨hlen, hget⟩ := ih _ _ _ _ _ h
          rw [List.length_set] at hlen
          refine ⟨hlen, fun j hj => ?_⟩
          rw [hget j (by omega)]
          simp [List.getD, List.getElem?_set_ne (show chan ≠ j by omega)]

/-! ## Packing round-trips for the averaged-channel characterisation -/

theorem pack32_length : ∀ (l : List ℕ), (pack32 l).length = 4 * l.length := by
  intro l
  induction l with
  | nil => simp [pack32]
  | cons v t ih => simp [pack32, ih]; omega

theorem unpack32_pack32 : ∀ (l : List ℕ), (∀ v ∈ l, v < 4294967296) →
    unpack32 (pack32 l) = l := by
  intro l
  induction l with
  | nil => intro _; simp [pack32, unpack32]
  | cons v t ih =>
    intro hv
    have hvlt : v < 4294967296 := hv v (by simp)
    simp only [pack32, unpack32]
    rw [ih (fun w hw => hv w (by simp [hw]))]
    congr 1
    omega

/-- Characterisation of the averaged-data decode of channel 0 (the body of the
channel loop for one averaged channel, source lines 230-258): unpack the
32-bit sums and 8-bit overflow counts and apply the averaged transform. -/
theorem chanLoop_avg_chan0 (cb : Collab) (ph : AzfpProfileHeader)
    (sums ovfs rest : List ℕ)
    (hblen : 0 < ph.num_bins.length)
    (hb0 : ph.num_bins.getD 0 0 = sums.length)
    (hA : ph.is_averaged_data.getD 0 0 ≠ 0)
    (hsv : ∀ v ∈ sums, v < 4294967296)
    (hov : ovfs.length = sums.length) :
    chanLoop cb ph 0 1 [[], [], [], []] (pack32 sums ++ (ovfs ++ rest)) =
      (.ok [avgValues cb ph 0 sums ovfs, [], [], []], rest) := by
  have hct : ctGet ph.num_bins 0 = .ok (ph.num_bins.getD 0 0) := by
    simp [ctGet, hblen]
  have hpl : (pack32 sums).length = 4 * sums.length := pack32_length sums
  have h1 : ¬((pack32 sums ++ (ovfs ++ rest)).length < 4 * ph.num_bins.getD 0 0) := by
    simp only [List.length_append, hpl, hb0]; omega
  have ht1 : (pack32 sums ++ (ovfs ++ rest)).take (4 * ph.num_bins.getD 0 0) = pack32 sums := by
    rw [hb0, ← hpl]; exact List.take_left' rfl
  have hd1 : (pack32 sums ++ (ovfs ++ rest)).drop (4 * ph.num_bins.getD 0 0) = ovfs ++ rest := by
    rw [hb0, ← hpl]; exact List.drop_left' rfl
  have h2 : ¬((ovfs ++ rest).length < ph.num_bins.getD 0 0) := by
    simp only [List.length_append, hb0]; omega
  have ht2 : (ovfs ++ rest).take (ph.num_bins.getD 0 0) = ovfs := by
    rw [hb0, ← hov]; exact List.take_left' rfl
  have hd2 : (ovfs ++ rest).drop (ph.num_bins.getD 0 0) = rest := by
    rw [hb0, ← hov]; exact List.drop_left' rfl
  simp only [chanLoop, hct, if_pos hA, if_neg h1, hd1, if_neg h2, ht1, ht2, hd2,
    unpack32_pack32 sums hsv]
  rfl

/-! ## Calendar lemmas -/

theorem isLeap_iff (y : ℕ) :
    isLeap y = true ↔ (y % 4 = 0 ∧ (y % 100 ≠ 0 ∨ y % 400 = 0)) := by
  simp [isLeap]

set_option maxHeartbeats 1000000 in
theorem daysBeforeYear_succ (y : ℕ) (hy : 1 ≤ y) :
    daysBeforeYear (y + 1) = daysBeforeYear y + yearLength y := by
  unfold daysBeforeYear yearLength
  by_cases h : isLeap y = true
  · rw [if_pos h]
    rw [isLeap_iff] at h
    omega
  · rw [if_neg h]
    rw [isLeap_iff] at h
    push_neg at h
    omega

theorem daysBeforeYear_sum (a b : ℕ) (ha : 1 ≤ a) (hab : a ≤ b) :
    daysBeforeYear b = daysBeforeYear a + (Finset.Ico a b).sum yearLength := by
  induction b, hab using Nat.le_induction with
  | base => simp
  | succ b hb ih =>
    rw [daysBeforeYear_succ b (by omega), ih, Finset.sum_Ico_succ_top hb]
    rw [show (∑ k ∈ Finset.Ico a b, yearLength k) = (Finset.Ico a b).sum yearLength from rfl]
    omega

theorem daysFrom1900_eq (y : ℕ) (hy : 1 ≤ y) :
    daysFrom1900 y = (daysBeforeYear y : ℤ) - daysBeforeYear 1900 := by
  unfold daysFrom1900
  split
  · next h =>
    rw [daysBeforeYear_sum 1900 y (by omega) h]
    push_cast
    ring
  · next h =>
    rw [daysBeforeYear_sum y 1900 hy (by omega)]
    push_cast
    ring

/-! ## The claims -/

/-- C1 (corrected, counterexample): the source divides an averaged channel by
`range_samples[chan]` (here 3), not by `num_bins[chan]` (here 1) as the claim
states: on a record with `is_averaged_pings = 0`, `num_bins[0] = 1`,
`range_samples[0] = 3` and linear sum 21, the decoded value is the one built
from `21 / 3`, which differs from the value `21 / 1` the claim's divisor
predicts. -/
theorem c1_counterexample :
    chanLoop cb0 exH1 0 1 [[], [], [], []] [0, 0, 0, 21, 0] =
      (.ok [[scaleVal cb0 0 (21 / 3)], [], [], []], []) ∧
    exH1.is_averaged_pings = 0 ∧ exH1.num_bins.getD 0 0 = 1 ∧
    exH1.range_samples.getD 0 0 = 3 ∧
    scaleVal cb0 0 (21 / 3) ≠ scaleVal cb0 0 (21 / 1) := by
  refine ⟨by rfl, rfl, rfl, rfl, ?_⟩
  norm_num [scaleVal, cb0, DS]

/-- C1 (amended): for every averaged channel the divisor applied to the
reconstructed linear sum is `num_pings_profile * range_samples[chan]` when
`is_averaged_pings` is nonzero and `range_samples[chan]` alone when it is
zero (`num_bins` plays no part in the divisor). -/
theorem c1_divisor_range_samples (cb : Collab) (ph : AzfpProfileHeader)
    (sums ovfs rest : List ℕ) (hblen : 0 < ph.num_bins.length)
    (hb0 : ph.num_bins.getD 0 0 = sums.length)
    (hA : ph.is_averaged_data.getD 0 0 ≠ 0)
    (hsv : ∀ v ∈ sums, v < 4294967296) (hov : ovfs.length = sums.length) :
    chanLoop cb ph 0 1 [[], [], [], []] (pack32 sums ++ (ovfs ++ rest)) =
      (.ok [List.zipWith (fun b o => scaleVal cb 0 ((b + o * 4294967295) /
          (if ph.is_averaged_pings ≠ 0 then ph.num_pings_profile * ph.range_samples.getD 0 0
           else ph.range_samples.getD 0 0))) sums ovfs, [], [], []], rest) := by
  rw [chanLoop_avg_chan0 cb ph sums ovfs rest hblen hb0 hA hsv hov]
  simp [avgValues, avgLinear, divisorFor]

/-- C1 witness: the amended statement at a concrete input. -/
theorem c1_witness :
    chanLoop cb0 exH1 0 1 [[], [], [], []] (pack32 [21] ++ ([0] ++ [])) =
      (.ok [List.zipWith (fun b o => scaleVal cb0 0 ((b + o * 4294967295) /
          (if exH1.is_averaged_pings ≠ 0 then
            exH1.num_pings_profile * exH1.range_samples.getD 0 0
           else exH1.range_samples.getD 0 0))) [21] [0], [], [], []], []) :=
  c1_divisor_range_samples cb0 exH1 [21] [0] [] (by decide) (by decide) (by decide)
    (by decide) (by decide)

/-- C2 (corrected, counterexample): the overflow count is multiplied by
`0xFFFFFFFF = 2^32 - 1` (source line 255), not by `2^32`: with linear sum 0,
overflow 1 and divisor 1, the decoded value is built from
`0 + 1 * 4294967295`, which differs from the value the claim's `2^32`
multiplier predicts. -/
theorem c2_counterexample :
    chanLoop cb0 exH2 0 1 [[], [], [], []] [0, 0, 0, 0, 1] =
      (.ok [[scaleVal cb0 0 (0 + 1 * 4294967295)], [], [], []], []) ∧
    divisorFor exH2 0 = 1 ∧
    scaleVal cb0 0 (0 + 1 * 4294967295) ≠ scaleVal cb0 0 (0 + 1 * 2 ^ 32) := by
  refine ⟨by rfl, rfl, ?_⟩
  norm_num [scaleVal, cb0, DS]

/-- C2 (amended): for every averaged channel and every bin, the value before
division is `sum + overflow_count * (2^32 - 1)` — the overflow carries
`0xFFFFFFFF`, one less than `2^32`, per unit. -/
theorem c2_overflow_multiplier (cb : Collab) (ph : AzfpProfileHeader)
    (sums ovfs rest : List ℕ) (hblen : 0 < ph.num_bins.length)
    (hb0 : ph.num_bins.getD 0 0 = sums.length)
    (hA : ph.is_averaged_data.getD 0 0 ≠ 0)
    (hsv : ∀ v ∈ sums, v < 4294967296) (hov : ovfs.length = sums.length) :
    chanLoop cb ph 0 1 [[], [], [], []] (pack32 sums ++ (ovfs ++ rest)) =
      (.ok [List.zipWith (fun b o => scaleVal cb 0 ((b + o * (2 ^ 32 - 1)) / divisorFor ph 0))
          sums ovfs, [], [], []], rest) := by
  rw [chanLoop_avg_chan0 cb ph sums ovfs rest hblen hb0 hA hsv hov]
  norm_num [avgValues, avgLinear]

/-- C2 witness: the amended statement at a concrete input. -/
theorem c2_witness :
    chanLoop cb0 exH2 0 1 [[], [], [], []] (pack32 [0] ++ ([1] ++ [])) =
      (.ok [List.zipWith (fun b o => scaleVal cb0 0 ((b + o * (2 ^ 32 - 1)) / divisorFor exH2 0))
          [0] [1], [], [], []], []) :=
  c2_overflow_multiplier cb0 exH2 [0] [1] [] (by decide) (by decide) (by decide)
    (by decide) (by decide)

/-- C3 (confirmed): a stream of N well-formed records parses to exactly N
particles with no diagnostics and no abort, and the i-th particle's header
scalar fields (serial number, phase, burst number, tilt X/Y, battery voltage,
pressure, temperature) equal the fields encoded in the i-th record's header
bytes. -/
theorem c3_roundtrip_framing (cb : Collab) (hcb : CollabOK cb) (rs : List WFRec)
    (hwf : ∀ R ∈ rs, wfRec R) :
    (parseFile cb (recsBytes rs)).particles.length = rs.length ∧
    (parseFile cb (recsBytes rs)).numDiags = 0 ∧
    (parseFile cb (recsBytes rs)).aborted = false ∧
    ∀ i, i < rs.length →
      ((parseFile cb (recsBytes rs)).particles.getD i default).serial_number =
        (decodeHeader (rs.getD i default).hdr).serial_num ∧
      ((parseFile cb (recsBytes rs)).particles.getD i default).phase =
        (decodeHeader (rs.getD i default).hdr).phase ∧
      ((parseFile cb (recsBytes rs)).particles.getD i default).burst_number =
        (decodeHeader (rs.getD i default).hdr).burst_num ∧
      ((parseFile cb (recsBytes rs)).particles.getD i default).tilt_x =
        (decodeHeader (rs.getD i default).hdr).tilt_x ∧
      ((parseFile cb (recsBytes rs)).particles.getD i default).tilt_y =
        (decodeHeader (rs.getD i default).hdr).tilt_y ∧
      ((parseFile cb (recsBytes rs)).particles.getD i default).battery_voltage =
        (decodeHeader (rs.getD i default).hdr).battery_voltage ∧
      ((parseFile cb (recsBytes rs)).particles.getD i default).pressure =
        (decodeHeader (rs.getD i default).hdr).pressure ∧
      ((parseFile cb (recsBytes rs)).particles.getD i default).temperature =
        (decodeHeader (rs.getD i default).hdr).temperature := by
  have hmain := parseFile_frame cb hcb rs hwf []
  rw [List.append_nil, parseFile_nil] at hmain
  rw [hmain]
  refine ⟨by simp, by simp, by simp, ?_⟩
  intro i hi
  have hgm : ((rs.map (particleFor cb) ++ ([] : List Particle)).getD i default) =
      particleFor cb (rs.getD i default) := by
    rw [List.append_nil]
    rw [List.getD_eq_getElem _ _ (by simpa using hi), List.getD_eq_getElem _ _ hi]
    simp
  have hm : rs.getD i default ∈ rs := by
    rw [List.getD_eq_getElem _ _ hi]
    exact List.getElem_mem hi
  obtain ⟨_, hs⟩ := particleFor_spec cb hcb _ (hwf _ hm)
  rw [hgm]
  exact hs

set_option maxRecDepth 100000 in
/-- C3 witness: a 2-record stream parses to 2 particles, no diagnostics. -/
theorem c3_witness : (∀ R ∈ [exR0, exRraw], wfRec R) ∧
    (parseFile cb0 (recsBytes [exR0, exRraw])).particles.length = 2 ∧
    (parseFile cb0 (recsBytes [exR0, exRraw])).numDiags = 0 := by
  have hwf : ∀ R ∈ [exR0, exRraw], wfRec R := by decide
  have h := c3_roundtrip_framing cb0 ⟨fun _ => rfl, fun _ _ _ _ _ => rfl⟩ [exR0, exRraw] hwf
  exact ⟨hwf, h.1, h.2.1⟩

/-- C4 (confirmed): inserting K ≥ 1 bytes that contain no delimiter pair
between two well-formed records yields the same particles, and the exception
callback is invoked exactly once more than without the insertion (one
diagnostic for the whole misaligned span, not one per byte). -/
theorem c4_resync (cb : Collab) (hcb : CollabOK cb) (R1 R2 : WFRec)
    (h1 : wfRec R1) (_h2 : wfRec R2) (g : List ℕ) (hg : g ≠ []) (hok : gapOK g) :
    (parseFile cb (R1.bytes ++ (g ++ R2.bytes))).particles =
      (parseFile cb (R1.bytes ++ R2.bytes)).particles ∧
    (parseFile cb (R1.bytes ++ (g ++ R2.bytes))).numDiags =
      (parseFile cb (R1.bytes ++ R2.bytes)).numDiags + 1 := by
  have hwf1 : ∀ R ∈ [R1], wfRec R := by
    intro R hR
    rw [List.mem_singleton] at hR
    subst hR
    exact h1
  have e1 : R1.bytes ++ (g ++ R2.bytes) = recsBytes [R1] ++ (g ++ R2.bytes) := by
    simp [recsBytes]
  have e2 : R1.bytes ++ R2.bytes = recsBytes [R1] ++ R2.bytes := by
    simp [recsBytes]
  have hby : R2.bytes = 253 :: 2 :: R2.core := rfl
  have hW := parseFile_frame cb hcb [R1] hwf1 (g ++ R2.bytes)
  have hO := parseFile_frame cb hcb [R1] hwf1 R2.bytes
  have hgap := parseFile_gapshift cb g hg hok R2.core
  rw [e1, e2, hby]
  rw [hby] at hW hO
  rw [hW, hO, hgap]
  simp

/-- C4 witness: a 3-byte gap between two concrete records. -/
theorem c4_witness :
    (parseFile cb0 (exR0.bytes ++ ([7, 7, 7] ++ exRraw.bytes))).particles =
      (parseFile cb0 (exR0.bytes ++ exRraw.bytes)).particles ∧
    (parseFile cb0 (exR0.bytes ++ ([7, 7, 7] ++ exRraw.bytes))).numDiags =
      (parseFile cb0 (exR0.bytes ++ exRraw.bytes)).numDiags + 1 :=
  c4_resync cb0 ⟨fun _ => rfl, fun _ _ _ _ _ => rfl⟩ exR0 exRraw (by decide) (by decide)
    [7, 7, 7] (by decide) (by decide)

set_option maxRecDepth 100000 in
/-- C5 (corrected, counterexample): a stream ending with a valid delimiter
followed by a 1-byte fragment does NOT terminate silently: `readinto` fills
the fresh header partially (returning a nonzero count), `parse_record` runs
on it, the all-zero date raises `ValueError`, and exactly one diagnostic is
reported — the claim predicts zero diagnostics. -/
theorem c5_counterexample :
    (parseFile cb0 [253, 2, 0]).numDiags = 1 ∧
    (parseFile cb0 [253, 2, 0]).particles = [] := by decide

/-- C5 (amended): a trailing fragment of 1..121 bytes after a valid delimiter
runs the record decode on the zero-padded partially-filled header; when the
fragment is short enough that the decoded date fields stay zero (≤ 10 bytes,
so the year bytes are unfilled), the invalid date raises `ValueError`:
exactly one diagnostic, no particle, and the loop then terminates cleanly
after the preceding records were all emitted. -/
theorem c5_trailing_fragment (cb : Collab) (hcb : CollabOK cb) (rs : List WFRec)
    (hwf : ∀ R ∈ rs, wfRec R) (frag : List ℕ) (hf1 : 1 ≤ frag.length)
    (hf10 : frag.length ≤ 10) :
    parseFile cb (recsBytes rs ++ (253 :: 2 :: frag)) =
      ⟨rs.map (particleFor cb), 1, false⟩ := by
  have hne : ¬frag.isEmpty = true := by
    cases frag with
    | nil => simp at hf1
    | cons a t => simp
  have htk : frag.take 122 = frag := List.take_of_length_le (by omega)
  have hdp : frag.drop 122 = [] := List.drop_eq_nil_iff.2 (by omega)
  have hnc : (decodeHeader frag).num_channels = 0 := by
    show u8 frag 76 = 0
    unfold u8
    exact List.getD_eq_default _ _ (by omega)
  have hyr : (decodeHeader frag).year = 0 := by
    show u16 frag 10 = 0
    unfold u16
    rw [List.getD_eq_default _ _ (by omega), List.getD_eq_default _ _ (by omega)]
  have hts : tsValidB (decodeHeader frag) = false := by
    simp [tsValidB, hyr]
  have hpr : parseRecord cb (decodeHeader frag) [] = (.error .valueError, []) := by
    simp only [parseRecord, hnc]
    rw [show chanLoop cb (decodeHeader frag) 0 0 [[], [], [], []] [] =
      (.ok [[], [], [], []], []) from rfl]
    simp [hts]
  have hgo : pfGo cb (frag.length + 1) frag = ⟨[], 1, false⟩ := by
    simp only [pfGo, if_neg hne]
    rw [htk, hdp, hpr]
    simp [fnrScan_nil, pfGo_nil]
  have htail : parseFile cb (253 :: 2 :: frag) = ⟨[], 1, false⟩ := by
    simp only [parseFile, fnrScan_delim]
    rw [hgo]
    simp
  rw [parseFile_frame cb hcb rs hwf _, htail]
  simp

/-- C5 witness: the amended statement at a concrete input (one well-formed
record, then a delimiter and a single stray byte). -/
theorem c5_witness :
    parseFile cb0 (recsBytes [exR0] ++ (253 :: 2 :: [0])) =
      ⟨[exR0].map (particleFor cb0), 1, false⟩ :=
  c5_trailing_fragment cb0 ⟨fun _ => rfl, fun _ _ _ _ _ => rfl⟩ [exR0] (by decide) [0]
    (by decide) (by decide)

set_option maxRecDepth 100000 in
/-- C6 (corrected, counterexample): corrupting the channel-body bytes of a
record IN PLACE (same length) does not make unpacking fail: the record is
still emitted (with corrupted values) and no diagnostic is reported — on a
2-record stream with record 1's raw body bytes replaced, the parser emits 2
particles and 0 diagnostics, where the claim predicts record 1 dropped with
one diagnostic. -/
theorem c6_counterexample :
    (parseFile cb0 (recsBytes [exRrawC, exRraw])).particles.length = 2 ∧
    (parseFile cb0 (recsBytes [exRrawC, exRraw])).numDiags = 0 := by decide

/-- C6 (amended): unpacking fails only when the stream holds fewer bytes
than the header-derived body length, i.e. at end of stream: a final record
whose delimiter and header are intact but whose body is truncated is dropped
with exactly one `struct.error` diagnostic, every preceding well-formed
record is emitted, and the loop terminates normally instead of aborting. -/
theorem c6_truncated_last_record (cb : Collab) (hcb : CollabOK cb) (rs : List WFRec)
    (hwf : ∀ R ∈ rs, wfRec R) (hdr2 pbody : List ℕ) (hh : hdr2.length = 122)
    (hnc : (decodeHeader hdr2).num_channels ≤ 4)
    (hlt : pbody.length < bodyLen (decodeHeader hdr2)) :
    parseFile cb (recsBytes rs ++ (253 :: 2 :: (hdr2 ++ pbody))) =
      ⟨rs.map (particleFor cb), 1, false⟩ := by
  have hlen : 122 ≤ (hdr2 ++ pbody).length := by
    simp only [List.length_append, hh]; omega
  have hne : ¬(hdr2 ++ pbody).isEmpty = true := by
    intro habs
    rw [List.isEmpty_iff] at habs
    rw [habs] at hlen
    simp at hlen
  have htk : (hdr2 ++ pbody).take 122 = hdr2 := List.take_left' hh
  have hdp : (hdr2 ++ pbody).drop 122 = pbody := List.drop_left' hh
  have hchl := chanLoop_underflow cb (decodeHeader hdr2) rfl
    (decodeHeader hdr2).num_channels 0 [[], [], [], []] pbody hlt (by omega)
  have hpr : parseRecord cb (decodeHeader hdr2) pbody = (.error .structError, []) := by
    simp only [parseRecord, hchl]
  have hgo : pfGo cb ((hdr2 ++ pbody).length + 1) (hdr2 ++ pbody) = ⟨[], 1, false⟩ := by
    simp only [pfGo, if_neg hne]
    rw [htk, hdp, hpr]
    simp [fnrScan_nil, pfGo_nil]
  have htail : parseFile cb (253 :: 2 :: (hdr2 ++ pbody)) = ⟨[], 1, false⟩ := by
    simp only [parseFile, fnrScan_delim]
    rw [hgo]
    simp
  rw [parseFile_frame cb hcb rs hwf _, htail]
  simp

/-- C6 witness: one well-formed record followed by a record whose 2-byte raw
body is truncated to 1 byte. -/
theorem c6_witness :
    parseFile cb0 (recsBytes [exR0] ++ (253 :: 2 :: (encodeHeader exHraw ++ [0]))) =
      ⟨[exR0].map (particleFor cb0), 1, false⟩ :=
  c6_truncated_last_record cb0 ⟨fun _ => rfl, fun _ _ _ _ _ => rfl⟩ [exR0] (by decide)
    (encodeHeader exHraw) [0] (by decide) (by decide) (by decide)

/-- C7 (confirmed): for every record with valid calendar components, the
particle timestamp — `(datetime(...) - datetime(1900, 1, 1)).total_seconds()`
with `hundredths * 10000` microseconds — equals the direct calendar
difference in seconds from 1900-01-01T00:00:00, computed independently by
summing year lengths from 1900. -/
theorem c7_timestamp_epoch (ph : AzfpProfileHeader) (hts : tsValidB ph = true) :
    timestamp1900 ph = specSecondsSince1900 ph.year ph.month ph.day ph.hour ph.minute
      ph.second ph.hundredths := by
  have hy : 1 ≤ ph.year := by
    simp only [tsValidB, Bool.and_eq_true, decide_eq_true_eq] at hts
    omega
  have hdbm : daysBeforeMonth 1900 1 = 0 := by decide
  unfold timestamp1900 specSecondsSince1900 toOrdinal
  rw [daysFrom1900_eq ph.year hy, hdbm]
  push_cast
  ring

/-- C7 witness: the 2014-08-17 12:55:00 example. -/
theorem c7_witness : tsValidB exH0 = true ∧
    timestamp1900 exH0 =
      specSecondsSince1900 exH0.year exH0.month exH0.day exH0.hour exH0.minute
        exH0.second exH0.hundredths :=
  ⟨by decide, c7_timestamp_epoch exH0 (by decide)⟩

set_option maxRecDepth 100000 in
/-- C8 (confirmed): a record whose header declares `num_channels = 5` makes
the channel loop index the 4-element `num_bins` array out of bounds; the
`IndexError` is not among the exception types the parse loop catches, so the
whole parse aborts: a later well-formed record in the same stream is never
decoded. -/
theorem c8_unhandled_index_error_aborts :
    (parseFile cb0 (recsBytes [exR0] ++
      ((253 :: 2 :: encodeHeader exHbad) ++ recsBytes [exRraw]))).aborted = true ∧
    (parseFile cb0 (recsBytes [exR0] ++
      ((253 :: 2 :: encodeHeader exHbad) ++ recsBytes [exRraw]))).particles.length = 1 := by
  decide

/-- C9 (confirmed): every particle a successful record decode emits carries
frequency, values and depth-range fields for all four channels, and — when
the backscatter helper preserves the shape of each channel list — the values
list of every channel index at or above `num_channels` is empty. -/
theorem c9_particle_shape (cb : Collab)
    (hbs : ∀ ph v ss dr sa i, ((cb.bs ph v ss dr sa).getD i []).length = (v.getD i []).length)
    (ph : AzfpProfileHeader) (s : List ℕ) (p : Particle) (s' : List ℕ)
    (hok : parseRecord cb ph s = (.ok p, s')) :
    p.freq.length = 4 ∧ p.vals.length = 4 ∧ p.depth.length = 4 ∧
    ∀ c, ph.num_channels ≤ c → p.vals.getD c [] = [] := by
  unfold parseRecord at hok
  split at hok
  · simp at hok
  · next cv s2 heq =>
    split at hok
    · dsimp only [] at hok
      split at hok
      · simp only [Prod.mk.injEq, Except.ok.injEq] at hok
        obtain ⟨hp, _⟩ := hok
        subst hp
        obtain ⟨hlen, hframe⟩ := chanLoop_ok_frame cb ph ph.num_channels 0 _ _ _ _ heq
        refine ⟨rfl, rfl, rfl, ?_⟩
        intro c hc
        by_cases hc4 : c < 4
        · have hcv : cv.getD c [] = [] := by
            rw [hframe c (by omega)]
            interval_cases c <;> rfl
          have hl := hbs ph cv (cb.meta ph).1 (cb.meta ph).2.1 (cb.meta ph).2.2 c
          rw [hcv] at hl
          have hval : (mkParticle ph (timestamp1900 ph)
              (cb.bs ph cv (cb.meta ph).1 (cb.meta ph).2.1 (cb.meta ph).2.2)
              (cb.meta ph).2.1).vals.getD c [] =
              (cb.bs ph cv (cb.meta ph).1 (cb.meta ph).2.1 (cb.meta ph).2.2).getD c [] := by
            interval_cases c <;> rfl
          rw [hval]
          exact List.eq_nil_of_length_eq_zero (by simpa using hl)
        · apply List.getD_eq_default
          have h4 : (mkParticle ph (timestamp1900 ph)
              (cb.bs ph cv (cb.meta ph).1 (cb.meta ph).2.1 (cb.meta ph).2.2)
              (cb.meta ph).2.1).vals.length = 4 := rfl
          omega
      · simp at hok
    · simp at hok

set_option maxRecDepth 100000 in
/-- C9 witness: the shape statement at a concrete successful decode. -/
theorem c9_witness : (particleFor cb0 exR0).vals.length = 4 ∧
    (particleFor cb0 exR0).vals.getD 2 [] = [] := by
  have h := c9_particle_shape cb0 (fun _ _ _ _ _ _ => rfl) (decodeHeader exR0.hdr) []
    (particleFor cb0 exR0) [] (by rfl)
  exact ⟨h.2.1, h.2.2.2 2 (by decide)⟩

/-- C10 (confirmed): the parse loop rebuilds a fresh zero-initialised
`AzfpProfileHeader` before every header read, so the outcome of any suffix of
the stream — including a partial header fill at the end — is a function of
the suffix alone, never of field values decoded from earlier records: a
prefix of well-formed records contributes exactly its own particles and
leaves the suffix's particles, diagnostics and abort status unchanged. -/
theorem c10_fresh_header_frame (cb : Collab) (hcb : CollabOK cb) (rs : List WFRec)
    (hwf : ∀ R ∈ rs, wfRec R) (suffix : List ℕ) :
    parseFile cb (recsBytes rs ++ suffix) =
      ⟨rs.map (particleFor cb) ++ (parseFile cb suffix).particles,
       (parseFile cb suffix).numDiags, (parseFile cb suffix).aborted⟩ :=
  parseFile_frame cb hcb rs hwf suffix

set_option maxRecDepth 100000 in
/-- C10 witness: a concrete record followed by a delimiter and a stray byte. -/
theorem c10_witness :
    parseFile cb0 (recsBytes [exR1] ++ [253, 2, 0]) =
      ⟨[exR1].map (particleFor cb0) ++ (parseFile cb0 [253, 2, 0]).particles,
       (parseFile cb0 [253, 2, 0]).numDiags, (parseFile cb0 [253, 2, 0]).aborted⟩ :=
  c10_fresh_header_frame cb0 ⟨fun _ => rfl, fun _ _ _ _ _ => rfl⟩ [exR1] (by decide)
    [253, 2, 0]

end ZplscC
